import Mathlib

/-!
Verification of the `web-dev-deps` repository: the `renameFilesInLibESM`
build-output renamer, the `clean` script, and the `makeJestConfig` factory.

Filesystems are modelled as lists of file paths (`List String`); Lean 4
strings wrap `List Char`, so path manipulation is done on `String.data`.
-/

/- ### The ModuleExtensionRenamer (`renameFilesInLibESM`) -/

/-- The characters of the source extension `.js`. -/
def jsSuffix : List Char := ['.', 'j', 's']

/-- The characters of the target extension `.mjs`. -/
def mjsSuffix : List Char := ['.', 'm', 'j', 's']

/-- The hardcoded output directory the renamer operates on
(asserted by the unit test: `readdir` is called with this path). -/
def libESMDir : String := "lib/esm/"

/-- Modelled from the spec: the implementation of `renameFilesInLibESM` is not
under src/ (only its unit test is). Per the spec, the new name is computed "by
replacing the trailing extension segment (`.js`) with the target extension
(`.mjs`), preserving all preceding characters including any internal dots".
For a name that does not carry the trailing `.js` segment the replacement rule
has nothing to replace and the name is left unchanged (the rename is still
issued unconditionally, see `renameOps`). -/
def newFileName (fileName : String) : String :=
  if jsSuffix.isSuffixOf fileName.data then
    ⟨fileName.data.take (fileName.data.length - 3) ++ mjsSuffix⟩
  else
    fileName

/-- Modelled from the spec: "Issue one rename operation per entry, mapping old
path to new path, both rooted at the same directory." -/
def renameOps (listing : List String) : List (String × String) :=
  listing.map (fun fileName => (libESMDir ++ fileName, libESMDir ++ newFileName fileName))

/-- An observable filesystem call made by the renamer. -/
inductive FSEvent where
  | readdirCall (dirPath : String)
  | renameCall (oldPath newPath : String)
deriving DecidableEq

/-- Is this event a `rename` call? -/
def FSEvent.isRenameCall : FSEvent → Bool
  | .renameCall _ _ => true
  | _ => false

/-- Is this event a `readdir` call? -/
def FSEvent.isReaddirCall : FSEvent → Bool
  | .readdirCall _ => true
  | _ => false

/-- An error surfaced by the renamer: either the directory listing failed, or
an individual rename failed. -/
inductive RenamerError where
  | listingError (message : String)
  | renameError (oldPath newPath : String)
deriving DecidableEq

/-- The outcome of the sequential rename pass: the final filesystem contents,
the rename calls actually issued (in order), and the first failing rename, if
any. -/
structure PassOutcome where
  finalFiles : List String
  renamesIssued : List (String × String)
  firstFailure : Option (String × String)
deriving DecidableEq

/-- The sequential rename pass: one rename per operation, stopping at the
first failure. A rename succeeds exactly when the old path currently exists
(POSIX rename overwrites an existing target silently); on success the old path
is replaced by the new path. Failures surface immediately: no retry, no
further renames, no rollback. -/
def applyRenames (files : List String) : List (String × String) → PassOutcome
  | [] => ⟨files, [], none⟩
  | (oldPath, newPath) :: rest =>
    if oldPath ∈ files then
      ⟨(applyRenames (newPath :: files.erase oldPath) rest).finalFiles,
       (oldPath, newPath) :: (applyRenames (newPath :: files.erase oldPath) rest).renamesIssued,
       (applyRenames (newPath :: files.erase oldPath) rest).firstFailure⟩
    else
      ⟨files, [(oldPath, newPath)], some (oldPath, newPath)⟩

/-- One invocation of the renamer: its full call trace, the resulting
filesystem contents, and its result. -/
structure RenamerRun where
  events : List FSEvent
  finalFiles : List String
  result : Except RenamerError Unit

/-- Modelled from the spec: `renameFilesInLibESM` first queries the directory
listing of `lib/esm/` (exactly once); if the listing fails the error
propagates and no rename is issued; otherwise one rename is issued per entry,
sequentially, stopping at the first failure. The listing outcome is a
parameter so that listing failure (spec: ListingError) can be analysed. -/
def runRenamer (files : List String) (listingResult : Except String (List String)) :
    RenamerRun :=
  match listingResult with
  | .error message =>
      ⟨[.readdirCall libESMDir], files, .error (.listingError message)⟩
  | .ok listing =>
      ⟨.readdirCall libESMDir ::
         ((applyRenames files (renameOps listing)).renamesIssued.map
           (fun op => .renameCall op.1 op.2)),
       (applyRenames files (renameOps listing)).finalFiles,
       match (applyRenames files (renameOps listing)).firstFailure with
       | none => .ok ()
       | some op => .error (.renameError op.1 op.2)⟩

/-- The entries of a directory: the files whose path starts with `dirPath`,
with that leading directory stripped. -/
def readdirListing (files : List String) (dirPath : String) : List String :=
  (files.filter (fun p => dirPath.data.isPrefixOf p.data)).map
    (fun p => ⟨p.data.drop dirPath.data.length⟩)

/-- A full invocation of `renameFilesInLibESM` against the current filesystem
contents: the listing is read fresh from `lib/esm/`. -/
def renameFilesInLibESM (files : List String) : RenamerRun :=
  runRenamer files (Except.ok (readdirListing files libESMDir))

/-- The seven-entry listing of the `compiledFiles` mock used by the unit test. -/
def compiledFiles : List String :=
  [".commitlintrc.js", "a.js", "b.js", "c.js", "d.js", "e.js",
   "jestTransformerSVGFile.js"]

/- ### The `clean` script (src/unnamed/part_001) -/

/-- Options of the `rm` function of `node:fs/promises`. -/
structure RmOptions where
  force : Bool
  recursive : Bool
deriving DecidableEq

/-- Models the `rm` function of `node:fs/promises` per its documented semantics: deleting a
path nothing lives under fails with ENOENT unless `force` is set (with `force`
it is a successful no-op); deleting a non-empty directory requires
`recursive`; on success everything under the path is removed. -/
def fsRm (files : List String) (dirPath : String) (opts : RmOptions) :
    Except String (List String) :=
  if (files.filter (fun p => dirPath.data.isPrefixOf p.data)).isEmpty then
    if opts.force then Except.ok files else Except.error "ENOENT"
  else if opts.recursive then
    Except.ok (files.filter (fun p => !(dirPath.data.isPrefixOf p.data)))
  else
    Except.error "ERR_FS_EISDIR"

/-- The directory the `clean` function deletes. -/
def dirToDelete : String := "lib/"

/-- The `clean` function: deletes the lib/ directory with
`\x7bforce: true, recursive: true\x7d` (the cross-platform `rm -rf lib/`). -/
def clean (files : List String) : Except String (List String) :=
  fsRm files dirToDelete ⟨true, true⟩

/-- The two environment variables the clean script inspects. `none` models an
unset variable. -/
structure ProcessEnv where
  CI : Option String
  NODE_ENV : Option String

/-- The `environments` object of the clean script. -/
structure Environments where
  isCI : Bool
  isTest : Bool

/-- `environments`: `isCI` is `process.env.CI === "true"`, `isTest` is
`process.env.NODE_ENV === "test"`. -/
def environments (env : ProcessEnv) : Environments :=
  { isCI := env.CI == some "true", isTest := env.NODE_ENV == some "test" }

/-- The guard of the top-level conditional of the clean script:
`!environments.isCI && !environments.isTest`. -/
def shouldInvokeClean (env : ProcessEnv) : Bool :=
  !(environments env).isCI && !(environments env).isTest

/-- The top-level effect of importing the clean-script module: it calls
`clean` exactly when the guard holds, and otherwise leaves the filesystem
untouched. -/
def cleanModuleImport (env : ProcessEnv) (files : List String) :
    Except String (List String) :=
  if shouldInvokeClean env then clean files else Except.ok files

/- ### `makeJestConfig` (src/src/jest.config.ts) -/

/-- The result of the external `getRepoMetadata` helper (out of scope per the
spec; its reported fields are parameters). -/
structure RepoMetadata where
  absoluteRootDir : String
  dependencyPartialPath : String
  isDevDepsRepo : Bool

/-- The `global` coverage thresholds. -/
structure CoverageThresholdGlobal where
  branches : Nat
  functions : Nat
  lines : Nat
  statements : Nat
deriving DecidableEq

/-- The Jest configuration object returned by `makeJestConfig`, with the
fields the source sets. `moduleNameMapper` and `transform` are maps from
regular-expression strings to module/transformer path strings. -/
structure JestConfig where
  cacheDirectory : String
  collectCoverageFrom : List String
  coveragePathIgnorePatterns : List String
  coverageProvider : String
  coverageReporters : List String
  coverageThreshold : CoverageThresholdGlobal
  extensionsToTreatAsEsm : List String
  moduleFileExtensions : List String
  moduleNameMapper : List (String × String)
  rootDir : String
  testEnvironment : String
  testPathIgnorePatterns : List String
  transform : List (String × String)
  transformIgnorePatterns : List String
  verbose : Bool

/-- `binaryFileExtensions.list`. -/
def binaryFileExtensionsList : List String := [".jpg", ".png", ".woff2"]

/-- `binaryFileExtensions.makeTransformRegExp()`. -/
def makeTransformRegExp : String :=
  "(" ++ String.intercalate "|" binaryFileExtensionsList ++ ")"

/-- The `ignorePatterns` array of `makeJestConfig`. -/
def ignorePatterns : List String :=
  ["<rootDir>/lib/", "<rootDir>/node_modules/", "<rootDir>/www/", ".mock.(js|ts)"]

/-- `makeJestConfig`, translated from src/src/jest.config.ts. The awaited
result of the external `dependsOn(["pug", "react"])` call (does the repo
depend on at least one frontend package?) is the parameter
`hasFrontendDependency`; the result of `getRepoMetadata()` is `md`. -/
def makeJestConfig (hasFrontendDependency : Bool) (md : RepoMetadata) : JestConfig :=
  let testEnvironment := if hasFrontendDependency then "jsdom" else "node"
  let transformerBasePath :=
    if md.isDevDepsRepo then "<rootDir>" else "<rootDir>/" ++ md.dependencyPartialPath
  { cacheDirectory := "<rootDir>/.caches/.jestcache/",
    collectCoverageFrom := ["**/*.\x7bcjs,js,jsx,cts,ts,tsx\x7d"],
    coveragePathIgnorePatterns := ignorePatterns ++ binaryFileExtensionsList,
    coverageProvider := "v8",
    coverageReporters := ["text", "text-summary"],
    coverageThreshold := ⟨100, 100, 100, 100⟩,
    extensionsToTreatAsEsm := [".jsx", ".ts", ".tsx"],
    moduleFileExtensions := ["cts", "ts", "tsx", "cjs", "js", "jsx", "json"],
    moduleNameMapper := [("^(\\.\\.?\\/.+)\\.(cjs|js|jsx)", "$1")],
    rootDir := md.absoluteRootDir,
    testEnvironment := testEnvironment,
    testPathIgnorePatterns := ignorePatterns,
    transform :=
      [(makeTransformRegExp, transformerBasePath ++ "/lib/jest-transformers/binaryFile.js"),
       (".(js|jsx|ts|tsx)", "@swc/jest"),
       (".svg", transformerBasePath ++ "/lib/jest-transformers/svgFile.js")],
    transformIgnorePatterns := ["<rootDir>/node_modules/", ".json"],
    verbose := true }

/- ### Helper lemmas about the renamer -/

/-- Appending `.js` and then applying the extension-replacement rule yields
the same base with `.mjs` appended. -/
theorem newFileName_append_js (base : String) :
    newFileName (base ++ ".js") = base ++ ".mjs" := by
  have hdata : (base ++ ".js").data = base.data ++ jsSuffix := rfl
  have hsfx : jsSuffix.isSuffixOf (base.data ++ jsSuffix) = true :=
    List.isSuffixOf_iff_suffix.mpr (List.suffix_append _ _)
  simp only [newFileName, hdata, hsfx, if_true]
  have hlen : (base.data ++ jsSuffix).length - 3 = base.data.length := by
    simp [jsSuffix]
  rw [hlen, List.take_left]
  rfl

/-- Left cancellation for string append. -/
theorem strAppend_cancel_left (d a b : String) (h : d ++ a = d ++ b) : a = b := by
  apply String.ext
  have hd : d.data ++ a.data = d.data ++ b.data := congrArg String.data h
  exact List.append_cancel_left hd

/-- No string ends both in `.js` and in `.mjs`. -/
theorem js_ne_mjs (b c : String) : b ++ ".js" ≠ c ++ ".mjs" := by
  intro h
  have hd : b.data ++ jsSuffix = c.data ++ mjsSuffix := congrArg String.data h
  have hr := congrArg List.reverse hd
  simp [jsSuffix, mjsSuffix, List.reverse_append] at hr

/-- Reading the directory listing of `lib/esm/` when the filesystem holds
exactly the paths `lib/esm/<f>` for `f` in `listing` returns `listing`. -/
theorem readdirListing_map (listing : List String) :
    readdirListing (listing.map (fun f => libESMDir ++ f)) libESMDir = listing := by
  induction listing with
  | nil => rfl
  | cons f rest ih =>
    have hpre : libESMDir.data.isPrefixOf (libESMDir ++ f).data = true :=
      List.isPrefixOf_iff_prefix.mpr ⟨f.data, rfl⟩
    have hhead : (⟨(libESMDir ++ f).data.drop libESMDir.data.length⟩ : String) = f := by
      show (⟨(libESMDir.data ++ f.data).drop libESMDir.data.length⟩ : String) = f
      rw [List.drop_left]
    simp only [readdirListing, List.map_cons, List.filter_cons, hpre, if_true] at ih ⊢
    rw [hhead]
    exact congrArg (List.cons f) ih

/-- When the pass reports no failure, the renames issued are exactly the
operations given. -/
theorem applyRenames_renamesIssued_of_ok :
    ∀ (ops : List (String × String)) (files : List String),
    (applyRenames files ops).firstFailure = none →
    (applyRenames files ops).renamesIssued = ops := by
  intro ops
  induction ops with
  | nil => intro files _; rfl
  | cons op rest ih =>
    intro files h
    obtain ⟨oldPath, newPath⟩ := op
    by_cases hmem : oldPath ∈ files
    · simp only [applyRenames, if_pos hmem] at h ⊢
      exact congrArg (List.cons _) (ih _ h)
    · simp only [applyRenames, if_neg hmem] at h
      exact absurd h (by simp)

/-- A pass fails immediately when the old path of its first operation is absent:
only that one rename is issued and the filesystem is untouched. -/
theorem applyRenames_head_fail (files : List String) (op : String × String)
    (rest : List (String × String)) (h : op.1 ∉ files) :
    applyRenames files (op :: rest) = ⟨files, [op], some op⟩ := by
  obtain ⟨oldPath, newPath⟩ := op
  simp only [applyRenames, if_neg h]

/-- Splitting a pass at its first failing operation: after a failure-free
prefix `pre`, an operation `op` whose old path no longer exists stops the
pass; the renames issued are exactly `pre` plus the failing call (none of
`post` is issued), and the filesystem stays as the prefix left it. -/
theorem applyRenames_break (op : String × String) (post : List (String × String)) :
    ∀ (pre : List (String × String)) (files : List String),
    (applyRenames files pre).firstFailure = none →
    op.1 ∉ (applyRenames files pre).finalFiles →
    (applyRenames files (pre ++ op :: post)).firstFailure = some op ∧
    (applyRenames files (pre ++ op :: post)).renamesIssued = pre ++ [op] ∧
    (applyRenames files (pre ++ op :: post)).finalFiles =
      (applyRenames files pre).finalFiles := by
  intro pre
  induction pre with
  | nil =>
    intro files _ hnot
    rw [List.nil_append]
    rw [applyRenames_head_fail files op post hnot]
    exact ⟨rfl, rfl, rfl⟩
  | cons p pre ih =>
    intro files hok hnot
    obtain ⟨oldPath, newPath⟩ := p
    by_cases hmem : oldPath ∈ files
    · simp only [List.cons_append, applyRenames, if_pos hmem] at hok hnot ⊢
      obtain ⟨h1, h2, h3⟩ := ih _ hok hnot
      exact ⟨h1, congrArg (List.cons _) h2, h3⟩
    · simp only [applyRenames, if_neg hmem] at hok
      exact absurd hok (by simp)

/-- Running the pass over the operations for `rest` on a filesystem that is a
permutation of the paths `lib/esm/<f>` for `f` in `rest` together with some
already-renamed `.mjs` paths: the pass succeeds and every resulting file is a
`lib/esm/`-rooted `.mjs` file. -/
theorem applyRenames_fresh :
    ∀ (rest : List String) (files extra : List String),
    (∀ f ∈ rest, ∃ b, f = b ++ ".js") →
    (∀ p ∈ extra, ∃ c, p = libESMDir ++ (c ++ ".mjs")) →
    List.Perm files (rest.map (fun f => libESMDir ++ f) ++ extra) →
    (applyRenames files (renameOps rest)).firstFailure = none ∧
    ∀ p ∈ (applyRenames files (renameOps rest)).finalFiles,
      ∃ c, p = libESMDir ++ (c ++ ".mjs") := by
  intro rest
  induction rest with
  | nil =>
    intro files extra _ hextra hperm
    refine ⟨rfl, ?_⟩
    intro p hp
    exact hextra p ((List.nil_append extra ▸ hperm).mem_iff.mp hp)
  | cons f rest ih =>
    intro files extra hjs hextra hperm
    have hmem : (libESMDir ++ f) ∈ files := by
      apply hperm.mem_iff.mpr
      simp
    have herase : List.Perm (files.erase (libESMDir ++ f))
        (rest.map (fun g => libESMDir ++ g) ++ extra) := by
      have h1 := hperm.erase (libESMDir ++ f)
      rw [List.map_cons, List.cons_append, List.erase_cons_head] at h1
      exact h1
    have hperm2 : List.Perm ((libESMDir ++ newFileName f) :: files.erase (libESMDir ++ f))
        (rest.map (fun g => libESMDir ++ g) ++ ((libESMDir ++ newFileName f) :: extra)) := by
      exact (herase.cons (libESMDir ++ newFileName f)).trans List.perm_middle.symm
    obtain ⟨b, hb⟩ := hjs f (List.mem_cons_self f rest)
    have hextra2 : ∀ p ∈ (libESMDir ++ newFileName f) :: extra,
        ∃ c, p = libESMDir ++ (c ++ ".mjs") := by
      intro p hp
      rcases List.mem_cons.mp hp with hp | hp
      · refine ⟨b, ?_⟩
        rw [hp, hb, newFileName_append_js]
      · exact hextra p hp
    have hstep := ih ((libESMDir ++ newFileName f) :: files.erase (libESMDir ++ f))
      ((libESMDir ++ newFileName f) :: extra)
      (fun g hg => hjs g (List.mem_cons_of_mem f hg)) hextra2 hperm2
    rw [show renameOps (f :: rest)
          = (libESMDir ++ f, libESMDir ++ newFileName f) :: renameOps rest from rfl]
    simp only [applyRenames, if_pos hmem]
    exact hstep

/-- When no rename fails, the run reports success. -/
theorem runRenamer_result_ok (files listing : List String)
    (h : (applyRenames files (renameOps listing)).firstFailure = none) :
    (runRenamer files (Except.ok listing)).result = Except.ok () := by
  simp only [runRenamer, h]

/-- When the pass stops at a failing rename, the run reports the error of
that rename. -/
theorem runRenamer_result_error (files listing : List String) (op : String × String)
    (h : (applyRenames files (renameOps listing)).firstFailure = some op) :
    (runRenamer files (Except.ok listing)).result =
      Except.error (RenamerError.renameError op.1 op.2) := by
  simp only [runRenamer, h]

/-- A list of rename-call events keeps all its elements under the
rename-call filter. -/
theorem filter_renameCalls_of_map (ops : List (String × String)) :
    (ops.map (fun op => FSEvent.renameCall op.1 op.2)).filter FSEvent.isRenameCall
      = ops.map (fun op => FSEvent.renameCall op.1 op.2) := by
  induction ops with
  | nil => rfl
  | cons op rest ih => simp [FSEvent.isRenameCall, ih]

/-- A list of rename-call events holds no readdir call. -/
theorem filter_readdirCalls_of_map (ops : List (String × String)) :
    (ops.map (fun op => FSEvent.renameCall op.1 op.2)).filter FSEvent.isReaddirCall = [] := by
  induction ops with
  | nil => rfl
  | cons op rest ih => simp [FSEvent.isReaddirCall, ih]

/-- When no rename fails, the events of a run are the readdir call followed by
one rename call per planned operation. -/
theorem runRenamer_events_ok (files listing : List String)
    (h : (applyRenames files (renameOps listing)).firstFailure = none) :
    (runRenamer files (Except.ok listing)).events
      = FSEvent.readdirCall libESMDir ::
          (renameOps listing).map (fun op => FSEvent.renameCall op.1 op.2) := by
  simp only [runRenamer, applyRenames_renamesIssued_of_ok _ _ h]

/- ### The claims -/

/-- C1: For every file name in the target directory listing,
`renameFilesInLibESM` computes the new name by replacing only the trailing
`.js` extension segment with `.mjs`, preserving all preceding characters of
the name verbatim, including any internal dots; in particular
`.commitlintrc.js` maps to `.commitlintrc.mjs`, and every listed name of the
form `<base>.js` yields the rename operation
`lib/esm/<base>.js` to `lib/esm/<base>.mjs`. -/
theorem renameFilesInLibESM_replaces_trailing_js :
    (∀ base : String, newFileName (base ++ ".js") = base ++ ".mjs") ∧
    newFileName ".commitlintrc.js" = ".commitlintrc.mjs" ∧
    ∀ (listing : List String) (base : String), (base ++ ".js") ∈ listing →
      (libESMDir ++ (base ++ ".js"), libESMDir ++ (base ++ ".mjs")) ∈ renameOps listing := by
  refine ⟨newFileName_append_js, by decide, ?_⟩
  intro listing base hmem
  exact List.mem_map.mpr ⟨base ++ ".js", hmem, by rw [newFileName_append_js]⟩

/-- Witness for C1 at the concrete listing `compiledFiles` and base
`.commitlintrc`. -/
theorem renameFilesInLibESM_replaces_trailing_js_witness :
    (libESMDir ++ (".commitlintrc" ++ ".js"), libESMDir ++ (".commitlintrc" ++ ".mjs"))
      ∈ renameOps compiledFiles :=
  renameFilesInLibESM_replaces_trailing_js.2.2 compiledFiles ".commitlintrc" (by decide)

/-- C2: For every directory listing returned by readdir, if the run succeeds
then exactly one rename call is issued per listed entry (the number of rename
calls equals the number of entries), and every listed entry is renamed
unconditionally — a rename call for `lib/esm/<f>` is issued whether or not
`f` ends in `.js`. -/
theorem renameFilesInLibESM_one_rename_per_entry (files listing : List String)
    (hok : (runRenamer files (Except.ok listing)).result = Except.ok ()) :
    ((runRenamer files (Except.ok listing)).events.filter FSEvent.isRenameCall).length
        = listing.length ∧
    ∀ f ∈ listing,
      FSEvent.renameCall (libESMDir ++ f) (libESMDir ++ newFileName f)
        ∈ (runRenamer files (Except.ok listing)).events := by
  have hnone : (applyRenames files (renameOps listing)).firstFailure = none := by
    rcases hff : (applyRenames files (renameOps listing)).firstFailure with _ | op
    · rfl
    · rw [runRenamer_result_error files listing op hff] at hok
      exact absurd hok (by simp)
  rw [runRenamer_events_ok files listing hnone]
  constructor
  · rw [List.filter_cons]
    have hread : (FSEvent.isRenameCall (FSEvent.readdirCall libESMDir)) = false := rfl
    rw [hread]
    simp only [Bool.false_eq_true, if_false, filter_renameCalls_of_map, List.length_map]
    simp [renameOps]
  · intro f hf
    apply List.mem_cons_of_mem
    have h1 : (libESMDir ++ f, libESMDir ++ newFileName f) ∈ renameOps listing :=
      List.mem_map_of_mem _ hf
    exact List.mem_map_of_mem (fun op => FSEvent.renameCall op.1 op.2) h1

/-- Witness for C2 at a two-entry listing holding one `.js` entry and one
entry (`notes.txt`) that does not match the source extension: both are
renamed, and the rename count equals the entry count. -/
theorem renameFilesInLibESM_one_rename_per_entry_witness :
    ((runRenamer ["lib/esm/a.js", "lib/esm/notes.txt"]
        (Except.ok ["a.js", "notes.txt"])).events.filter FSEvent.isRenameCall).length
      = (["a.js", "notes.txt"] : List String).length ∧
    ∀ f ∈ (["a.js", "notes.txt"] : List String),
      FSEvent.renameCall (libESMDir ++ f) (libESMDir ++ newFileName f)
        ∈ (runRenamer ["lib/esm/a.js", "lib/esm/notes.txt"]
            (Except.ok ["a.js", "notes.txt"])).events :=
  renameFilesInLibESM_one_rename_per_entry _ _ (by rfl)

/-- C3: On the seven-entry listing `.commitlintrc.js`, `a.js`, ...,
`jestTransformerSVGFile.js` (with the corresponding files present under
`lib/esm/`), the renamer issues exactly 7 rename calls in listing order,
the first mapping `lib/esm/.commitlintrc.js` to `lib/esm/.commitlintrc.mjs`
and the last mapping `lib/esm/jestTransformerSVGFile.js` to
`lib/esm/jestTransformerSVGFile.mjs`, each call rooted at the same
directory. -/
theorem renameFilesInLibESM_seven_entry_scenario :
    (renameFilesInLibESM (compiledFiles.map (fun f => libESMDir ++ f))).events =
      [FSEvent.readdirCall "lib/esm/",
       FSEvent.renameCall "lib/esm/.commitlintrc.js" "lib/esm/.commitlintrc.mjs",
       FSEvent.renameCall "lib/esm/a.js" "lib/esm/a.mjs",
       FSEvent.renameCall "lib/esm/b.js" "lib/esm/b.mjs",
       FSEvent.renameCall "lib/esm/c.js" "lib/esm/c.mjs",
       FSEvent.renameCall "lib/esm/d.js" "lib/esm/d.mjs",
       FSEvent.renameCall "lib/esm/e.js" "lib/esm/e.mjs",
       FSEvent.renameCall "lib/esm/jestTransformerSVGFile.js"
         "lib/esm/jestTransformerSVGFile.mjs"] ∧
    ((renameFilesInLibESM (compiledFiles.map (fun f => libESMDir ++ f))).events.filter
        FSEvent.isRenameCall).length = 7 := by
  exact ⟨by decide, by decide⟩

/-- C4: For every invocation, the renamer queries the directory listing
exactly once, as its first filesystem call, on the fixed hardcoded path
`lib/esm/`; an invocation against the live filesystem reads the listing fresh
from the current contents (no caching). -/
theorem renameFilesInLibESM_single_fresh_readdir (files : List String)
    (listingResult : Except String (List String)) :
    (runRenamer files listingResult).events.filter FSEvent.isReaddirCall
        = [FSEvent.readdirCall "lib/esm/"] ∧
    (runRenamer files listingResult).events.head? = some (FSEvent.readdirCall "lib/esm/") ∧
    renameFilesInLibESM files = runRenamer files (Except.ok (readdirListing files libESMDir)) := by
  refine ⟨?_, ?_, rfl⟩
  · cases listingResult with
    | error message => rfl
    | ok listing =>
      show (FSEvent.readdirCall libESMDir ::
        ((applyRenames files (renameOps listing)).renamesIssued.map
          (fun op => FSEvent.renameCall op.1 op.2))).filter FSEvent.isReaddirCall = _
      rw [List.filter_cons]
      have hread : FSEvent.isReaddirCall (FSEvent.readdirCall libESMDir) = true := rfl
      rw [hread]
      simp only [if_true, filter_readdirCalls_of_map]
      rfl
  · cases listingResult with
    | error message => rfl
    | ok listing => rfl

/-- C5: If the directory listing fails, zero rename calls are issued, the
filesystem is unchanged, and the failure (with its message) propagates to the
caller. -/
theorem renameFilesInLibESM_listing_failure (files : List String) (message : String) :
    (runRenamer files (Except.error message)).events.filter FSEvent.isRenameCall = [] ∧
    (runRenamer files (Except.error message)).finalFiles = files ∧
    (runRenamer files (Except.error message)).result =
      Except.error (RenamerError.listingError message) :=
  ⟨rfl, rfl, rfl⟩

/-- C6: If an individual rename fails after the renames for the prefix `pre`
of the listing have succeeded, the run surfaces the error of that rename
immediately, issues the rename calls for `pre` and the failing entry `f` only
(none for the remaining entries `post`), and does not undo the completed
renames: the directory is left exactly as the successful prefix left it. -/
theorem renameFilesInLibESM_partial_failure_mixed_state
    (files pre post : List String) (f : String)
    (hpre : (applyRenames files (renameOps pre)).firstFailure = none)
    (hfail : (libESMDir ++ f) ∉ (applyRenames files (renameOps pre)).finalFiles) :
    (runRenamer files (Except.ok (pre ++ f :: post))).result =
      Except.error (RenamerError.renameError (libESMDir ++ f) (libESMDir ++ newFileName f)) ∧
    (runRenamer files (Except.ok (pre ++ f :: post))).events =
      FSEvent.readdirCall libESMDir ::
        (renameOps pre ++ [(libESMDir ++ f, libESMDir ++ newFileName f)]).map
          (fun op => FSEvent.renameCall op.1 op.2) ∧
    (runRenamer files (Except.ok (pre ++ f :: post))).finalFiles =
      (applyRenames files (renameOps pre)).finalFiles := by
  have hsplit : renameOps (pre ++ f :: post)
      = renameOps pre ++ (libESMDir ++ f, libESMDir ++ newFileName f) :: renameOps post := by
    simp [renameOps]
  obtain ⟨h1, h2, h3⟩ := applyRenames_break (libESMDir ++ f, libESMDir ++ newFileName f)
    (renameOps post) (renameOps pre) files hpre hfail
  refine ⟨?_, ?_, ?_⟩
  · exact runRenamer_result_error files (pre ++ f :: post) _ (by rw [hsplit]; exact h1)
  · show FSEvent.readdirCall libESMDir ::
      ((applyRenames files (renameOps (pre ++ f :: post))).renamesIssued.map
        (fun op => FSEvent.renameCall op.1 op.2)) = _
    rw [hsplit, h2]
  · show (applyRenames files (renameOps (pre ++ f :: post))).finalFiles = _
    rw [hsplit, h3]

/-- Witness for C6: with `lib/esm/a.js` and `lib/esm/c.js` present but
`lib/esm/b.js` absent, the pass over the listing `a.js`, `b.js`, `c.js`
renames `a.js`, fails on `b.js`, issues nothing for `c.js`, and keeps the
completed rename of `a.js`. -/
theorem renameFilesInLibESM_partial_failure_mixed_state_witness :
    (runRenamer ["lib/esm/a.js", "lib/esm/c.js"]
        (Except.ok (["a.js"] ++ "b.js" :: ["c.js"]))).result =
      Except.error (RenamerError.renameError (libESMDir ++ "b.js")
        (libESMDir ++ newFileName "b.js")) ∧
    (runRenamer ["lib/esm/a.js", "lib/esm/c.js"]
        (Except.ok (["a.js"] ++ "b.js" :: ["c.js"]))).events =
      FSEvent.readdirCall libESMDir ::
        (renameOps ["a.js"] ++ [(libESMDir ++ "b.js", libESMDir ++ newFileName "b.js")]).map
          (fun op => FSEvent.renameCall op.1 op.2) ∧
    (runRenamer ["lib/esm/a.js", "lib/esm/c.js"]
        (Except.ok (["a.js"] ++ "b.js" :: ["c.js"]))).finalFiles =
      (applyRenames ["lib/esm/a.js", "lib/esm/c.js"] (renameOps ["a.js"])).finalFiles :=
  renameFilesInLibESM_partial_failure_mixed_state
    ["lib/esm/a.js", "lib/esm/c.js"] ["a.js"] ["c.js"] "b.js" (by decide) (by decide)

/-- C7 counterexample: the claim "for every non-empty directory listing,
re-running the operation after a fully successful pass fails for every entry"
is false. With the non-empty listing arising from the single file
`lib/esm/a.js`, the first pass succeeds and leaves `lib/esm/a.mjs`; re-running
the operation reads the listing fresh, obtains the non-empty listing `a.mjs`,
and its one rename (of the existing path `lib/esm/a.mjs`) succeeds — the
second run fails for no entry. -/
theorem renameFilesInLibESM_rerun_succeeds_counterexample :
    readdirListing ["lib/esm/a.js"] libESMDir = ["a.js"] ∧
    (renameFilesInLibESM ["lib/esm/a.js"]).result = Except.ok () ∧
    (renameFilesInLibESM ["lib/esm/a.js"]).finalFiles = ["lib/esm/a.mjs"] ∧
    readdirListing ["lib/esm/a.mjs"] libESMDir = ["a.mjs"] ∧
    (renameFilesInLibESM ["lib/esm/a.mjs"]).result = Except.ok () ∧
    (renameFilesInLibESM ["lib/esm/a.mjs"]).events =
      [FSEvent.readdirCall "lib/esm/",
       FSEvent.renameCall "lib/esm/a.mjs" "lib/esm/a.mjs"] := by
  refine ⟨by decide, rfl, by decide, by decide, rfl, by decide⟩

/-- C7 (amended): the operation is not idempotent, but in this sense: after a
fully successful fresh pass over a non-empty listing of `.js`-named files
(the directory holding exactly those files), no file still exists under its
old `.js`-extension name, so re-applying the rename operations of that pass —
over the original listing, as the mocked unit test would — fails at its first
entry. (A fresh re-invocation instead lists the renamed `.mjs` files and
issues renames of existing paths, which succeed; see the counterexample.) -/
theorem renameFilesInLibESM_not_idempotent_on_original_listing
    (listing : List String) (hne : listing ≠ [])
    (hjs : ∀ f ∈ listing, ∃ b, f = b ++ ".js") :
    (renameFilesInLibESM (listing.map (fun f => libESMDir ++ f))).result = Except.ok () ∧
    (∀ f ∈ listing, (libESMDir ++ f) ∉
      (renameFilesInLibESM (listing.map (fun f => libESMDir ++ f))).finalFiles) ∧
    (runRenamer (renameFilesInLibESM (listing.map (fun f => libESMDir ++ f))).finalFiles
        (Except.ok listing)).result =
      Except.error (RenamerError.renameError (libESMDir ++ listing.head hne)
        (libESMDir ++ newFileName (listing.head hne))) := by
  have hinv : renameFilesInLibESM (listing.map (fun f => libESMDir ++ f))
      = runRenamer (listing.map (fun f => libESMDir ++ f)) (Except.ok listing) := by
    unfold renameFilesInLibESM
    rw [readdirListing_map]
  have hperm : List.Perm (listing.map (fun f => libESMDir ++ f))
      (listing.map (fun f => libESMDir ++ f) ++ []) := by
    rw [List.append_nil]
  obtain ⟨hnone, hmjs⟩ := applyRenames_fresh listing (listing.map (fun f => libESMDir ++ f)) []
    hjs (fun p hp => absurd hp (List.not_mem_nil p)) hperm
  have hfinal : (renameFilesInLibESM (listing.map (fun f => libESMDir ++ f))).finalFiles
      = (applyRenames (listing.map (fun f => libESMDir ++ f)) (renameOps listing)).finalFiles := by
    rw [hinv]
    rfl
  have hgone : ∀ f ∈ listing, (libESMDir ++ f) ∉
      (renameFilesInLibESM (listing.map (fun f => libESMDir ++ f))).finalFiles := by
    intro f hf hmem
    rw [hfinal] at hmem
    obtain ⟨c, hc⟩ := hmjs _ hmem
    obtain ⟨b, hb⟩ := hjs f hf
    have hfc : f = c ++ ".mjs" := strAppend_cancel_left libESMDir f (c ++ ".mjs") hc
    exact js_ne_mjs b c (hb ▸ hfc)
  refine ⟨?_, hgone, ?_⟩
  · rw [hinv]
    exact runRenamer_result_ok _ _ hnone
  · cases listing with
    | nil => exact absurd rfl hne
    | cons a tl =>
      have hnot : (libESMDir ++ a) ∉
          (renameFilesInLibESM ((a :: tl).map (fun f => libESMDir ++ f))).finalFiles :=
        hgone a (List.mem_cons_self a tl)
      have hhead : applyRenames
          (renameFilesInLibESM ((a :: tl).map (fun f => libESMDir ++ f))).finalFiles
          (renameOps (a :: tl))
          = ⟨(renameFilesInLibESM ((a :: tl).map (fun f => libESMDir ++ f))).finalFiles,
             [(libESMDir ++ a, libESMDir ++ newFileName a)],
             some (libESMDir ++ a, libESMDir ++ newFileName a)⟩ :=
        applyRenames_head_fail _ _ _ hnot
      have := runRenamer_result_error
        (renameFilesInLibESM ((a :: tl).map (fun f => libESMDir ++ f))).finalFiles
        (a :: tl) (libESMDir ++ a, libESMDir ++ newFileName a) (by rw [hhead])
      exact this

/-- Witness for the amended C7 at the singleton listing `a.js`. -/
theorem renameFilesInLibESM_not_idempotent_on_original_listing_witness :
    (renameFilesInLibESM (["a.js"].map (fun f => libESMDir ++ f))).result = Except.ok () ∧
    (∀ f ∈ (["a.js"] : List String), (libESMDir ++ f) ∉
      (renameFilesInLibESM (["a.js"].map (fun f => libESMDir ++ f))).finalFiles) ∧
    (runRenamer (renameFilesInLibESM (["a.js"].map (fun f => libESMDir ++ f))).finalFiles
        (Except.ok ["a.js"])).result =
      Except.error (RenamerError.renameError
        (libESMDir ++ (["a.js"] : List String).head (by decide))
        (libESMDir ++ newFileName ((["a.js"] : List String).head (by decide)))) :=
  renameFilesInLibESM_not_idempotent_on_original_listing ["a.js"] (by decide)
    (fun f hf => by
      refine ⟨"a", ?_⟩
      have : f = "a.js" := List.mem_singleton.mp hf
      rw [this]
      rfl)

/-- C8: The top-level clean script invokes the `clean` function if and only
if the environment variable CI is not the string "true" and NODE_ENV is not
the string "test"; in a CI/CD or test environment importing the module leaves
the filesystem (in particular lib/) untouched. -/
theorem cleanScript_invokes_clean_iff_not_ci_not_test (env : ProcessEnv) :
    (shouldInvokeClean env = true ↔
      (env.CI ≠ some "true" ∧ env.NODE_ENV ≠ some "test")) ∧
    ∀ files : List String, (env.CI = some "true" ∨ env.NODE_ENV = some "test") →
      cleanModuleImport env files = Except.ok files := by
  constructor
  · simp [shouldInvokeClean, environments]
  · intro files h
    have hfalse : shouldInvokeClean env = false := by
      simp only [shouldInvokeClean, environments]
      rcases h with h | h <;> simp [h]
    simp [cleanModuleImport, hfalse]

/-- Witness for C8: with CI set to "true", importing the clean-script module
does not delete anything. -/
theorem cleanScript_invokes_clean_iff_not_ci_not_test_witness :
    cleanModuleImport ⟨some "true", none⟩ ["lib/index.js", "src/index.ts"] =
      Except.ok ["lib/index.js", "src/index.ts"] :=
  (cleanScript_invokes_clean_iff_not_ci_not_test ⟨some "true", none⟩).2
    ["lib/index.js", "src/index.ts"] (Or.inl rfl)

/-- C9: `clean` deletes lib/ with the force and recursive options, so it
never raises an error; in particular, when nothing lives under lib/ (the
directory is absent) it is a successful no-op. -/
theorem clean_succeeds_even_when_lib_absent (files : List String) :
    ((∀ p ∈ files, dirToDelete.data.isPrefixOf p.data = false) →
      clean files = Except.ok files) ∧
    ∃ remaining, clean files = Except.ok remaining := by
  constructor
  · intro h
    have hempty : files.filter (fun p => dirToDelete.data.isPrefixOf p.data) = [] :=
      List.filter_eq_nil_iff.mpr (fun p hp => by simp [h p hp])
    simp [clean, fsRm, hempty]
  · by_cases hb : (files.filter (fun p => dirToDelete.data.isPrefixOf p.data)).isEmpty = true
    · exact ⟨files, by simp [clean, fsRm, hb]⟩
    · exact ⟨files.filter (fun p => !(dirToDelete.data.isPrefixOf p.data)),
        by simp [clean, fsRm, hb]⟩

/-- Witness for C9: cleaning a filesystem with no lib/ directory succeeds and
changes nothing. -/
theorem clean_succeeds_even_when_lib_absent_witness :
    clean ["src/index.ts"] = Except.ok ["src/index.ts"] :=
  (clean_succeeds_even_when_lib_absent ["src/index.ts"]).1 (by decide)

/-- C10: `makeJestConfig` sets `testEnvironment` to "jsdom" exactly when the
repository depends on at least one of "pug" or "react" (as reported by
`dependsOn`) and to "node" otherwise, and every other configuration field is
independent of that dependency check. -/
theorem makeJestConfig_testEnvironment_iff_frontend (hasFrontendDependency : Bool)
    (md : RepoMetadata) :
    ((makeJestConfig hasFrontendDependency md).testEnvironment = "jsdom"
        ↔ hasFrontendDependency = true) ∧
    ((makeJestConfig hasFrontendDependency md).testEnvironment = "node"
        ↔ hasFrontendDependency = false) ∧
    ∀ other : Bool,
      makeJestConfig other md =
        { makeJestConfig hasFrontendDependency md with
            testEnvironment := (makeJestConfig other md).testEnvironment } := by
  cases hasFrontendDependency <;> refine ⟨by simp [makeJestConfig], by simp [makeJestConfig], ?_⟩ <;>
    intro other <;> cases other <;> rfl
